import Mathlib

/-!
Verification of the mydb storage engine (src/src/lib.rs): a shallow
embedding of the record codec, the index builder (KeyDir::load), and the
MyDB get/set operations, followed by theorems settling the spec claims.
The definitions come first, then the helper lemmas and the claim
theorems.

Modelling conventions:
* Rust byte buffers (`Vec<u8>`, `&[u8]`, file contents) are `List Nat`
  whose elements are intended to lie below 256; machine integers (u32,
  usize) are `Nat`, with explicit `% 2 ^ 32` exactly where the source
  narrows to u32.
* Rust `String`/`&str` values are represented by their UTF-8 byte
  sequences (`List Nat`); validity of UTF-8 is the decidable predicate
  `isValidUtf8` below, transcribing the validation performed by
  `std::str::from_utf8`.
* Fallible Rust functions returning `Result<T>` become
  `Except Error T`.  `MyDB::get` and `MyDB::set` take `&mut self`; they
  are embedded in state-passing style, returning the result paired with
  the successor state.  File I/O on the in-memory byte list is total, so
  the only I/O failure that arises is reading past end of file,
  modelled as the `unexpectedEof` error kind (the kind `read_exact`
  reports).  The wall-clock timestamp consumed by `set` is passed as an
  explicit argument.
-/

/-- Error kinds of the wrapped io::Error values that can arise in the
pure model: reading past end of stream (ErrorKind::UnexpectedEof). -/
inductive IoErrorKind where
  | unexpectedEof
deriving DecidableEq, Repr

/-- The error enum of the library (lib.rs lines 10-16). -/
inductive Error where
  | DecodeError (msg : String)
  | IoError (kind : IoErrorKind)
  | KeyTooLong
  | ValueTooLong
deriving DecidableEq, Repr

/-- u32::MAX. -/
def u32Max : Nat := 2 ^ 32 - 1

/-- Little-endian byte serialization of a u32 (u32::to_le_bytes); the
source value is a u32, hence below 2 ^ 32. -/
def u32ToLeBytes (n : Nat) : List Nat :=
  [n % 256, n / 256 % 256, n / 256 ^ 2 % 256, n / 256 ^ 3 % 256]

/-- Little-endian deserialization of 4 bytes into a u32
(u32::from_le_bytes); the source slices exactly 4 bytes. -/
def u32FromLeBytes (l : List Nat) : Nat :=
  l.getD 0 0 + 256 * (l.getD 1 0 + 256 * (l.getD 2 0 + 256 * l.getD 3 0))

/-- Continuation byte of UTF-8: 0x80 to 0xBF. -/
def utf8Cont (b : Nat) : Bool := decide (0x80 ≤ b ∧ b ≤ 0xBF)

/-- Transcription of the UTF-8 validation performed by
std::str::from_utf8 (core::str::run_utf8_validation): ASCII bytes stand
alone; C2-DF start 2-byte sequences; E0-EF start 3-byte sequences with
the restricted second-byte ranges excluding overlong forms and
surrogates; F0-F4 start 4-byte sequences with the restricted second-byte
ranges excluding overlong forms and code points beyond U+10FFFF; any
other leading byte (80-C1, F5-FF, or anything not a byte) is invalid. -/
def isValidUtf8 : List Nat → Bool
  | [] => true
  | b :: rest =>
    if b ≤ 0x7F then isValidUtf8 rest
    else if 0xC2 ≤ b ∧ b ≤ 0xDF then
      match rest with
      | c1 :: rest2 => utf8Cont c1 && isValidUtf8 rest2
      | [] => false
    else if 0xE0 ≤ b ∧ b ≤ 0xEF then
      match rest with
      | c1 :: c2 :: rest3 =>
        (if b = 0xE0 then decide (0xA0 ≤ c1 ∧ c1 ≤ 0xBF)
         else if b = 0xED then decide (0x80 ≤ c1 ∧ c1 ≤ 0x9F)
         else utf8Cont c1) && utf8Cont c2 && isValidUtf8 rest3
      | _ => false
    else if 0xF0 ≤ b ∧ b ≤ 0xF4 then
      match rest with
      | c1 :: c2 :: c3 :: rest4 =>
        (if b = 0xF0 then decide (0x90 ≤ c1 ∧ c1 ≤ 0xBF)
         else if b = 0xF4 then decide (0x80 ≤ c1 ∧ c1 ≤ 0x8F)
         else utf8Cont c1) && utf8Cont c2 && utf8Cont c3 && isValidUtf8 rest4
      | _ => false
    else false

/-- The fixed-size record header (lib.rs lines 37-42). -/
structure Header where
  timestamp : Nat
  key_size : Nat
  value_size : Nat
deriving DecidableEq, Repr

/-- HEADER_SIZE: 12 bytes to encode three u32 (lib.rs line 44). -/
def HEADER_SIZE : Nat := 12

/-- Header::encode (lib.rs lines 47-53): the three fields, each as 4
little-endian bytes, in field order. -/
def Header.encode (h : Header) : List Nat :=
  u32ToLeBytes h.timestamp ++ u32ToLeBytes h.key_size ++ u32ToLeBytes h.value_size

/-- Header::decode (lib.rs lines 55-69): the buffer must be exactly 12
bytes, then the three fields are read from buf[..4], buf[4..8],
buf[8..]. -/
def Header.decode (buf : List Nat) : Except Error Header :=
  if buf.length ≠ HEADER_SIZE then
    .error (.DecodeError ("wrong header buffer size: got " ++ toString buf.length
      ++ " bytes, expected " ++ toString HEADER_SIZE ++ " bytes"))
  else
    .ok { timestamp := u32FromLeBytes (buf.take 4)
          key_size := u32FromLeBytes ((buf.drop 4).take 4)
          value_size := u32FromLeBytes (buf.drop 8) }

/-- The logical record (lib.rs lines 72-77); key and value are the UTF-8
bytes of the Rust Strings. -/
structure KeyValue where
  timestamp : Nat
  key : List Nat
  value : List Nat
deriving DecidableEq, Repr

/-- KeyValue::new (lib.rs lines 80-93): reject keys and values longer
than u32::MAX, in that order. -/
def KeyValue.new (timestamp : Nat) (key value : List Nat) : Except Error KeyValue :=
  if key.length > u32Max then .error .KeyTooLong
  else if value.length > u32Max then .error .ValueTooLong
  else .ok { timestamp, key, value }

/-- KeyValue::encode (lib.rs lines 96-106): header built from the
timestamp and the byte lengths, then raw key bytes, then raw value
bytes. -/
def KeyValue.encode (kv : KeyValue) : List Nat :=
  Header.encode { timestamp := kv.timestamp, key_size := kv.key.length,
                  value_size := kv.value.length }
    ++ kv.key ++ kv.value

/-- KeyValue::decode (lib.rs lines 108-146): require at least 12 bytes,
decode the header, require the total length to be exactly
12 + key_size + value_size, then take the key and value slices and
require each to be valid UTF-8. -/
def KeyValue.decode (buf : List Nat) : Except Error KeyValue :=
  if buf.length < HEADER_SIZE then
    .error (.DecodeError "not enough data to decode header")
  else
    match Header.decode (buf.take HEADER_SIZE) with
    | .error e => .error e
    | .ok hdr =>
      if buf.length ≠ HEADER_SIZE + hdr.key_size + hdr.value_size then
        .error (.DecodeError ("wrong key-value buffer size: got "
          ++ toString buf.length ++ " bytes, expected "
          ++ toString (HEADER_SIZE + hdr.key_size + hdr.value_size) ++ " bytes"))
      else
        let key := (buf.drop HEADER_SIZE).take hdr.key_size
        if isValidUtf8 key then
          let value := (buf.drop (HEADER_SIZE + hdr.key_size)).take hdr.value_size
          if isValidUtf8 value then
            .ok { timestamp := hdr.timestamp, key, value }
          else .error (.DecodeError "unable to decode utf-8")
        else .error (.DecodeError "unable to decode utf-8")

/-- KeyDirEntry (lib.rs lines 149-153): per-key metadata. -/
structure KeyDirEntry where
  timestamp : Nat
  size : Nat
  offset : Nat
deriving DecidableEq, Repr

/-- The in-memory index: HashMap<String, KeyDirEntry> modelled as an
association list where an insert prepends and a lookup returns the most
recently inserted binding. -/
def KeyDir : Type := List (List Nat × KeyDirEntry)

instance : DecidableEq KeyDir := by unfold KeyDir; infer_instance

/-- HashMap::insert: the new binding shadows any earlier one. -/
def kdInsert (kd : KeyDir) (k : List Nat) (e : KeyDirEntry) : KeyDir :=
  (k, e) :: kd

/-- HashMap::get: the most recently inserted binding for the key. -/
def kdLookup : KeyDir → List Nat → Option KeyDirEntry
  | [], _ => none
  | (k1, e) :: rest, k => if k1 = k then some e else kdLookup rest k

/-- One pass of the KeyDir::load loop (lib.rs lines 163-193), reading
the log from position pos.  A 12-byte header read that hits end of
stream returns ErrorKind::UnexpectedEof whether zero or some of the 12
bytes were available (std::io::Read::read_exact does not distinguish
the two), and the loop breaks successfully on that kind; the key read
propagates its UnexpectedEof as an I/O error; the value bytes are
skipped by a relative seek, which may move past end of file.  The fuel
argument is a bound on the number of loop iterations: every iteration
consumes at least 12 bytes, so fuel = log.length / 12 + 1 (supplied by
KeyDir.load) is never exhausted while bytes remain.  This function
stores the entry size as an unbounded Nat, so it models only the
executions in which the checked u32 narrowing of the entry size
(lib.rs line 188) succeeds; KeyDir.loadAuxChecked below refines it
with that narrowing, whose failure is a panic.  The engine-level
theorems in this file run it on logs far below the bound, where the
two loaders coincide (loadChecked_agrees_on_small_logs). -/
def KeyDir.loadAux : Nat → List Nat → Nat → KeyDir → Except Error KeyDir
  | 0, _, _, kd => .ok kd
  | fuel + 1, log, pos, kd =>
    if log.length < pos + HEADER_SIZE then
      .ok kd
    else
      match Header.decode ((log.drop pos).take HEADER_SIZE) with
      | .error e => .error e
      | .ok hdr =>
        if log.length < pos + HEADER_SIZE + hdr.key_size then
          .error (.IoError .unexpectedEof)
        else
          let key := (log.drop (pos + HEADER_SIZE)).take hdr.key_size
          if isValidUtf8 key then
            KeyDir.loadAux fuel log (pos + HEADER_SIZE + hdr.key_size + hdr.value_size)
              (kdInsert kd key
                { timestamp := hdr.timestamp,
                  size := HEADER_SIZE + hdr.key_size + hdr.value_size,
                  offset := pos })
          else .error (.DecodeError "unable to decode utf-8")

/-- KeyDir::load (lib.rs lines 158-196): scan the whole byte stream from
its start into an index. -/
def KeyDir.load (log : List Nat) : Except Error KeyDir :=
  KeyDir.loadAux (log.length / HEADER_SIZE + 1) log 0 []

/-- Outcome of running code that can abort: either a panic (a failed
unwrap, which never returns to the caller) or a normal completion. -/
inductive PanicOr (α : Type) where
  | panic
  | ret (a : α)
deriving DecidableEq, Repr

/-- Refinement of KeyDir.loadAux that also models the checked u32
narrowing of the entry size at lib.rs line 188:
(HEADER_SIZE + key_size + value_size).try_into().unwrap() panics —
the panic outcome — whenever the total exceeds u32::MAX; every other
behavior is identical to KeyDir.loadAux. -/
def KeyDir.loadAuxChecked : Nat → List Nat → Nat → KeyDir → PanicOr (Except Error KeyDir)
  | 0, _, _, kd => .ret (.ok kd)
  | fuel + 1, log, pos, kd =>
    if log.length < pos + HEADER_SIZE then
      .ret (.ok kd)
    else
      match Header.decode ((log.drop pos).take HEADER_SIZE) with
      | .error e => .ret (.error e)
      | .ok hdr =>
        if log.length < pos + HEADER_SIZE + hdr.key_size then
          .ret (.error (.IoError .unexpectedEof))
        else
          let key := (log.drop (pos + HEADER_SIZE)).take hdr.key_size
          if isValidUtf8 key then
            if u32Max < HEADER_SIZE + hdr.key_size + hdr.value_size then
              .panic
            else
              KeyDir.loadAuxChecked fuel log (pos + HEADER_SIZE + hdr.key_size + hdr.value_size)
                (kdInsert kd key
                  { timestamp := hdr.timestamp,
                    size := HEADER_SIZE + hdr.key_size + hdr.value_size,
                    offset := pos })
          else .ret (.error (.DecodeError "unable to decode utf-8"))

/-- KeyDir::load with the panic of the entry-size narrowing modelled:
the faithful loader for logs whose records may have any size. -/
def KeyDir.loadChecked (log : List Nat) : PanicOr (Except Error KeyDir) :=
  KeyDir.loadAuxChecked (log.length / HEADER_SIZE + 1) log 0 []

/-- The storage engine state (lib.rs lines 199-203): the file contents,
the index, and the tracked next-write offset; cursor is the read/write
position of the underlying file handle (writes ignore it, being in
append mode). -/
structure MyDB where
  file : List Nat
  keydir : KeyDir
  offset : Nat
  cursor : Nat
deriving DecidableEq

/-- MyDB::new_from_file (lib.rs lines 220-227): build the index from the
open handle, then construct the engine with offset initialized to 0.
The cursor is left wherever the buffered index scan moved it; nothing
later depends on it, and it is set to the end of the log here. -/
def MyDB.new_from_file (file : List Nat) : Except Error MyDB :=
  match KeyDir.load file with
  | .error e => .error e
  | .ok kd => .ok { file := file, keydir := kd, offset := 0, cursor := file.length }

/-- MyDB::new (lib.rs lines 206-218): open (creating if absent) the file
at the path for read + append and proceed exactly as new_from_file; the
argument is the opened file contents (the empty list when the file was
just created). -/
def MyDB.new (contents : List Nat) : Except Error MyDB :=
  MyDB.new_from_file contents

/-- MyDB::get (lib.rs lines 229-243), in state-passing style.  A missing
key returns Ok(None) before any I/O.  Otherwise the handle seeks to the
entry offset and reads exactly entry.size bytes (failing with
UnexpectedEof when they extend past end of file, with the cursor left
after the bytes actually available), and decodes them as a record. -/
def MyDB.get (db : MyDB) (key : List Nat) : Except Error (Option (List Nat)) × MyDB :=
  match kdLookup db.keydir key with
  | none => (.ok none, db)
  | some entry =>
    if db.file.length < entry.offset + entry.size then
      (.error (.IoError .unexpectedEof),
        { db with cursor := max entry.offset db.file.length })
    else
      let bytes := (db.file.drop entry.offset).take entry.size
      match KeyValue.decode bytes with
      | .error e => (.error e, { db with cursor := entry.offset + entry.size })
      | .ok kv => (.ok (some kv.value), { db with cursor := entry.offset + entry.size })

/-- MyDB::set (lib.rs lines 245-267), in state-passing style; the
wall-clock timestamp read by now_timestamp is an explicit argument.
Construct the record, append its encoding to the file (append mode:
the bytes land at end of file and the cursor ends there; flush and
sync_all are identities on the in-memory file), then insert the index
entry recording the tracked offset before the write and advance the
tracked offset by the encoded length.  The checked u32 narrowing of the
entry size at lib.rs line 260 (size.try_into().unwrap(), a panic when
the encoded length exceeds u32::MAX, reachable only for records beyond
4 GiB) is not modelled; the theorems about set either run it on tiny
concrete records or are conditioned on set returning an error, which
the panic path never does. -/
def MyDB.set (db : MyDB) (timestamp : Nat) (key value : List Nat) :
    Except Error Unit × MyDB :=
  match KeyValue.new timestamp key value with
  | .error e => (.error e, db)
  | .ok kv =>
    let bytes := kv.encode
    let file2 := db.file ++ bytes
    (.ok (),
      { file := file2,
        keydir := kdInsert db.keydir key
          { timestamp := timestamp, size := bytes.length, offset := db.offset },
        offset := db.offset + bytes.length,
        cursor := file2.length })

/-- Well-formedness of a record as produced by the Rust code: the
timestamp is a u32, the key and value are within the construction-time
length bound of KeyValue::new, and both are the byte sequences of Rust
Strings, hence valid UTF-8. -/
def KeyValue.wf (kv : KeyValue) : Prop :=
  kv.timestamp < 2 ^ 32 ∧ kv.key.length ≤ u32Max ∧ kv.value.length ≤ u32Max ∧
    isValidUtf8 kv.key = true ∧ isValidUtf8 kv.value = true

instance (kv : KeyValue) : Decidable kv.wf := by
  unfold KeyValue.wf; infer_instance

/-- The key_size field a decoder reads from the first 12 bytes of a
buffer (buf[4..8] of the header slice). -/
def decodedKeySize (buf : List Nat) : Nat :=
  u32FromLeBytes (((buf.take HEADER_SIZE).drop 4).take 4)

/-- The value_size field a decoder reads from the first 12 bytes of a
buffer (buf[8..] of the header slice). -/
def decodedValueSize (buf : List Nat) : Nat :=
  u32FromLeBytes ((buf.take HEADER_SIZE).drop 8)

/-- The timestamp field a decoder reads from the first 12 bytes of a
buffer (buf[..4] of the header slice). -/
def decodedTimestamp (buf : List Nat) : Nat :=
  u32FromLeBytes ((buf.take HEADER_SIZE).take 4)

/-- The key slice KeyValue::decode reads: key_size bytes after the
header. -/
def decodedKeyBytes (buf : List Nat) : List Nat :=
  (buf.drop HEADER_SIZE).take (decodedKeySize buf)

/-- The value slice KeyValue::decode reads: value_size bytes after the
key. -/
def decodedValueBytes (buf : List Nat) : List Nat :=
  (buf.drop (HEADER_SIZE + decodedKeySize buf)).take (decodedValueSize buf)

/-- The rejection condition of KeyValue::decode as the spec states it:
buffer shorter than 12 bytes, or total length different from
12 + key_size + value_size as read from the decoded header, or key or
value bytes not valid UTF-8. -/
def decodeRejects (buf : List Nat) : Prop :=
  buf.length < HEADER_SIZE ∨
  buf.length ≠ HEADER_SIZE + decodedKeySize buf + decodedValueSize buf ∨
  isValidUtf8 (decodedKeyBytes buf) = false ∨
  isValidUtf8 (decodedValueBytes buf) = false

instance (buf : List Nat) : Decidable (decodeRejects buf) := by
  unfold decodeRejects; infer_instance

/-- Total on-disk size of one record. -/
def recSize (r : KeyValue) : Nat := HEADER_SIZE + r.key.length + r.value.length

/-- A well-formed log: the concatenation of the encodings of a sequence
of records. -/
def encodeLog : List KeyValue → List Nat
  | [] => []
  | r :: rs => r.encode ++ encodeLog rs

/-- The index produced by replaying a record sequence in file order from
a given offset onto an existing index. -/
def foldEntries : KeyDir → Nat → List KeyValue → KeyDir
  | kd, _, [] => kd
  | kd, pos, r :: rs =>
    foldEntries (kdInsert kd r.key ⟨r.timestamp, recSize r, pos⟩) (pos + recSize r) rs

/-- Modelled from the spec of the index contents: the entry for a key is
the one of the last record in file order bearing that key, with the
timestamp from that record, size 12 + key_size + value_size, and offset
the byte position where that record begins; keys without a record are
absent. -/
def specLookup : List KeyValue → Nat → List Nat → Option KeyDirEntry
  | [], _, _ => none
  | r :: rs, pos, k =>
    match specLookup rs (pos + recSize r) k with
    | some e => some e
    | none => if r.key = k then some ⟨r.timestamp, recSize r, pos⟩ else none

/-- UTF-8 bytes of the string hello. -/
def helloBytes : List Nat := [104, 101, 108, 108, 111]

/-- UTF-8 bytes of the string world. -/
def worldBytes : List Nat := [119, 111, 114, 108, 100]

/-- A non-empty pre-existing log holding one complete record
(key hello, value world, timestamp 0): 22 bytes. -/
def preexistingLog : List Nat :=
  KeyValue.encode { timestamp := 0, key := helloBytes, value := worldBytes }

/-- Open a store over the non-empty 22-byte log, set key a to x, then
set key a to y, then get key a; any error aborts the pipeline. -/
def reopenSetSetGet : Except Error (Option (List Nat)) :=
  match MyDB.new preexistingLog with
  | .error e => .error e
  | .ok db0 =>
    match db0.set 1 [97] [120] with
    | (.error e, _) => .error e
    | (.ok _, db1) =>
      match db1.set 2 [97] [121] with
      | (.error e, _) => .error e
      | (.ok _, db2) => (db2.get [97]).fst

/-- The empty freshly-created store. -/
def emptyDB : MyDB := { file := [], keydir := [], offset := 0, cursor := 0 }

/-- A key of u32::MAX + 1 bytes, exceeding the 32-bit length field. -/
def oversizedBytes : List Nat := List.replicate (2 ^ 32) 0

/-- A well-formed one-record log followed by a single trailing byte:
the truncated-trailing-record shape the spec calls a fatal load error. -/
def truncatedTailLog : List Nat :=
  KeyValue.encode { timestamp := 5, key := [97], value := [98] } ++ [7]

/-- A three-record log in which the key a appears twice. -/
def demoRecords : List KeyValue :=
  [⟨5, [97], [120]⟩, ⟨6, [98], [121]⟩, ⟨7, [97], [122]⟩]

/-- A well-formed record at the edge of the construction-time bound: its
key is exactly u32::MAX bytes of the ASCII letter a, which KeyValue::new
accepts (the check is strict greater-than), yet its total on-disk size
12 + u32::MAX exceeds u32::MAX, so building the index over its encoding
panics at the entry-size narrowing. -/
def hugeRecord : KeyValue :=
  { timestamp := 0, key := List.replicate u32Max 97, value := [] }

/-! ### Helper lemmas and claim theorems -/

theorem u32FromLeBytes_quad (a b c d : Nat) :
    u32FromLeBytes [a, b, c, d] = a + 256 * (b + 256 * (c + 256 * d)) := rfl

theorem u32_roundtrip (n : Nat) : u32FromLeBytes (u32ToLeBytes n) = n % 2 ^ 32 := by
  rw [u32ToLeBytes, u32FromLeBytes_quad]
  omega

theorem Header.encode_length (h : Header) : (Header.encode h).length = HEADER_SIZE := by
  simp [Header.encode, u32ToLeBytes, HEADER_SIZE]

theorem Header.decode_of_length (buf : List Nat) (h : buf.length = HEADER_SIZE) :
    Header.decode buf = .ok
      { timestamp := u32FromLeBytes (buf.take 4),
        key_size := u32FromLeBytes ((buf.drop 4).take 4),
        value_size := u32FromLeBytes (buf.drop 8) } := by
  unfold Header.decode
  rw [if_neg (by omega)]

theorem Header.decode_encode (h : Header) :
    Header.decode (Header.encode h) = .ok
      { timestamp := h.timestamp % 2 ^ 32,
        key_size := h.key_size % 2 ^ 32,
        value_size := h.value_size % 2 ^ 32 } := by
  rw [Header.decode_of_length _ (Header.encode_length h)]
  have h1 : (Header.encode h).take 4 = u32ToLeBytes h.timestamp := rfl
  have h2 : ((Header.encode h).drop 4).take 4 = u32ToLeBytes h.key_size := rfl
  have h3 : (Header.encode h).drop 8 = u32ToLeBytes h.value_size := rfl
  rw [h1, h2, h3, u32_roundtrip, u32_roundtrip, u32_roundtrip]

theorem KeyValue.encode_total_length (kv : KeyValue) :
    kv.encode.length = HEADER_SIZE + kv.key.length + kv.value.length := by
  simp only [KeyValue.encode, List.length_append, Header.encode_length]

theorem KeyValue.decode_encode_roundtrip (kv : KeyValue) (h : kv.wf) :
    KeyValue.decode kv.encode = .ok kv := by
  obtain ⟨hts, hk, hv, hku, hvu⟩ := h
  have hk32 : kv.key.length < 2 ^ 32 := by unfold u32Max at hk; omega
  have hv32 : kv.value.length < 2 ^ 32 := by unfold u32Max at hv; omega
  have hlen := KeyValue.encode_total_length kv
  have henc : kv.encode
      = Header.encode { timestamp := kv.timestamp, key_size := kv.key.length,
                        value_size := kv.value.length } ++ (kv.key ++ kv.value) := by
    rw [KeyValue.encode, List.append_assoc]
  unfold KeyValue.decode
  rw [if_neg (by omega)]
  have htake : kv.encode.take HEADER_SIZE
      = Header.encode { timestamp := kv.timestamp, key_size := kv.key.length,
                        value_size := kv.value.length } := by
    rw [henc]
    exact List.take_left' (Header.encode_length _)
  rw [htake, Header.decode_encode]
  simp only [Nat.mod_eq_of_lt hts, Nat.mod_eq_of_lt hk32, Nat.mod_eq_of_lt hv32]
  rw [if_neg (by omega)]
  have hdropHdr : kv.encode.drop HEADER_SIZE = kv.key ++ kv.value := by
    rw [henc]
    exact List.drop_left' (Header.encode_length _)
  have hkey : (kv.encode.drop HEADER_SIZE).take kv.key.length = kv.key := by
    rw [hdropHdr]
    exact List.take_left' rfl
  have hval : (kv.encode.drop (HEADER_SIZE + kv.key.length)).take kv.value.length
      = kv.value := by
    have henc2 : kv.encode
        = (Header.encode { timestamp := kv.timestamp, key_size := kv.key.length,
                           value_size := kv.value.length } ++ kv.key) ++ kv.value := by
      rw [KeyValue.encode]
    rw [henc2, List.drop_left' (by simp [List.length_append, Header.encode_length]),
      List.take_length]
  simp only [hkey, hku, hval, hvu, if_true]

theorem KeyValue.decode_of_ge (buf : List Nat) (h : ¬ buf.length < HEADER_SIZE) :
    KeyValue.decode buf =
      if buf.length ≠ HEADER_SIZE + decodedKeySize buf + decodedValueSize buf then
        .error (.DecodeError ("wrong key-value buffer size: got "
          ++ toString buf.length ++ " bytes, expected "
          ++ toString (HEADER_SIZE + decodedKeySize buf + decodedValueSize buf)
          ++ " bytes"))
      else if isValidUtf8 (decodedKeyBytes buf) then
        if isValidUtf8 (decodedValueBytes buf) then
          .ok { timestamp := decodedTimestamp buf, key := decodedKeyBytes buf,
                value := decodedValueBytes buf }
        else .error (.DecodeError "unable to decode utf-8")
      else .error (.DecodeError "unable to decode utf-8") := by
  unfold KeyValue.decode
  rw [if_neg h, Header.decode_of_length _ (by simp [List.length_take, HEADER_SIZE] at h ⊢; omega)]
  rfl

theorem KeyValue.decode_characterization (buf : List Nat) :
    (decodeRejects buf → ∃ msg, KeyValue.decode buf = .error (.DecodeError msg)) ∧
    (¬ decodeRejects buf → KeyValue.decode buf =
      .ok { timestamp := decodedTimestamp buf, key := decodedKeyBytes buf,
            value := decodedValueBytes buf }) := by
  by_cases h12 : buf.length < HEADER_SIZE
  · constructor
    · intro _
      refine ⟨"not enough data to decode header", ?_⟩
      unfold KeyValue.decode
      rw [if_pos h12]
    · exact fun hn => absurd (Or.inl h12) hn
  · rw [KeyValue.decode_of_ge buf h12]
    constructor
    · intro hrej
      rcases hrej with h | h | h | h
      · exact absurd h h12
      · exact ⟨_, if_pos h⟩
      · by_cases hl : buf.length ≠ HEADER_SIZE + decodedKeySize buf + decodedValueSize buf
        · exact ⟨_, if_pos hl⟩
        · refine ⟨"unable to decode utf-8", ?_⟩
          rw [if_neg hl, if_neg (by simp [h])]
      · by_cases hl : buf.length ≠ HEADER_SIZE + decodedKeySize buf + decodedValueSize buf
        · exact ⟨_, if_pos hl⟩
        · by_cases hk : isValidUtf8 (decodedKeyBytes buf) = true
          · refine ⟨"unable to decode utf-8", ?_⟩
            rw [if_neg hl, if_pos hk, if_neg (by simp [h])]
          · refine ⟨"unable to decode utf-8", ?_⟩
            rw [if_neg hl, if_neg hk]
    · intro hok
      unfold decodeRejects at hok
      push_neg at hok
      obtain ⟨_, hlen, hku, hvu⟩ := hok
      rw [if_neg (by omega), if_pos (by simpa using hku), if_pos (by simpa using hvu)]

theorem KeyValue.encode_length_recSize (r : KeyValue) : r.encode.length = recSize r :=
  KeyValue.encode_total_length r

theorem kdLookup_foldEntries (rs : List KeyValue) :
    ∀ (kd : KeyDir) (pos : Nat) (k : List Nat),
      kdLookup (foldEntries kd pos rs) k =
        match specLookup rs pos k with
        | some e => some e
        | none => kdLookup kd k := by
  induction rs with
  | nil => intro kd pos k; rfl
  | cons r rs ih =>
    intro kd pos k
    have hfe : foldEntries kd pos (r :: rs)
        = foldEntries (kdInsert kd r.key ⟨r.timestamp, recSize r, pos⟩) (pos + recSize r) rs :=
      rfl
    rw [hfe, ih]
    cases hspec : specLookup rs (pos + recSize r) k with
    | some e => simp [specLookup, hspec]
    | none =>
      simp only [specLookup, hspec]
      by_cases h : r.key = k <;> simp [kdLookup, kdInsert, h]

theorem isValidUtf8_cons97 (l : List Nat) : isValidUtf8 (97 :: l) = isValidUtf8 l := by
  delta isValidUtf8
  rfl

theorem isValidUtf8_replicate97 (n : Nat) : isValidUtf8 (List.replicate n 97) = true := by
  induction n with
  | zero => rfl
  | succ n ih =>
    rw [List.replicate_succ, isValidUtf8_cons97]
    exact ih

theorem recSize_expand (r : KeyValue) :
    recSize r = HEADER_SIZE + r.key.length + r.value.length := rfl

theorem hugeRecord_wf : hugeRecord.wf := by
  refine ⟨by decide, ?_, Nat.zero_le _, isValidUtf8_replicate97 u32Max, rfl⟩
  rw [show hugeRecord.key = List.replicate u32Max 97 from rfl, List.length_replicate]

theorem KeyDir.loadAuxChecked_stop (fuel : Nat) (log : List Nat) (pos : Nat) (kd : KeyDir)
    (h : log.length < pos + HEADER_SIZE) :
    KeyDir.loadAuxChecked fuel log pos kd = .ret (.ok kd) := by
  cases fuel with
  | zero => rfl
  | succ fuel =>
    simp only [KeyDir.loadAuxChecked]
    rw [if_pos h]

theorem KeyDir.loadAuxChecked_cons (fuel : Nat) (pre : List Nat) (r : KeyValue)
    (tail : List Nat) (kd : KeyDir) (hts : r.timestamp < 2 ^ 32)
    (hk32 : r.key.length < 2 ^ 32) (hv32 : r.value.length < 2 ^ 32)
    (hku : isValidUtf8 r.key = true) (hsmall : recSize r ≤ u32Max) :
    KeyDir.loadAuxChecked (fuel + 1) (pre ++ (r.encode ++ tail)) pre.length kd
      = KeyDir.loadAuxChecked fuel (pre ++ (r.encode ++ tail)) (pre ++ r.encode).length
          (kdInsert kd r.key ⟨r.timestamp, recSize r, pre.length⟩) := by
  have hel : r.encode.length = recSize r := KeyValue.encode_length_recSize r
  have hlog : (pre ++ (r.encode ++ tail)).length = pre.length + recSize r + tail.length := by
    simp only [List.length_append, hel]
    omega
  have hrs : recSize r = HEADER_SIZE + r.key.length + r.value.length := rfl
  have hsplit : pre ++ (r.encode ++ tail)
      = (pre ++ Header.encode { timestamp := r.timestamp, key_size := r.key.length,
                                value_size := r.value.length })
        ++ (r.key ++ (r.value ++ tail)) := by
    rw [KeyValue.encode]
    simp [List.append_assoc]
  have hc1 : ¬ (pre ++ (r.encode ++ tail)).length < pre.length + HEADER_SIZE := by omega
  simp only [KeyDir.loadAuxChecked]
  rw [if_neg hc1]
  have hdrop : (pre ++ (r.encode ++ tail)).drop pre.length = r.encode ++ tail :=
    List.drop_left pre _
  have htake : ((pre ++ (r.encode ++ tail)).drop pre.length).take HEADER_SIZE
      = Header.encode { timestamp := r.timestamp, key_size := r.key.length,
                        value_size := r.value.length } := by
    rw [hdrop]
    have h2 : r.encode ++ tail
        = Header.encode { timestamp := r.timestamp, key_size := r.key.length,
                          value_size := r.value.length } ++ ((r.key ++ r.value) ++ tail) := by
      rw [KeyValue.encode]
      simp [List.append_assoc]
    rw [h2]
    exact List.take_left' (Header.encode_length _)
  rw [htake, Header.decode_encode]
  dsimp only
  rw [Nat.mod_eq_of_lt hts, Nat.mod_eq_of_lt hk32, Nat.mod_eq_of_lt hv32]
  have hc2 : ¬ (pre ++ (r.encode ++ tail)).length < pre.length + HEADER_SIZE + r.key.length := by
    omega
  rw [if_neg hc2]
  have hkeyslice : ((pre ++ (r.encode ++ tail)).drop (pre.length + HEADER_SIZE)).take r.key.length
      = r.key := by
    rw [hsplit, List.drop_left' (by simp [List.length_append, Header.encode_length]),
      List.take_left' rfl]
  rw [hkeyslice, hku]
  rw [if_pos rfl]
  rw [if_neg (by omega)]
  have hpos : pre.length + HEADER_SIZE + r.key.length + r.value.length
      = (pre ++ r.encode).length := by
    simp only [List.length_append, hel]
    omega
  rw [hpos, ← hrs]

theorem KeyDir.loadAuxChecked_panic_at (fuel : Nat) (pre : List Nat) (r : KeyValue)
    (tail : List Nat) (kd : KeyDir) (hts : r.timestamp < 2 ^ 32)
    (hk32 : r.key.length < 2 ^ 32) (hv32 : r.value.length < 2 ^ 32)
    (hku : isValidUtf8 r.key = true) (hbig : u32Max < recSize r) :
    KeyDir.loadAuxChecked (fuel + 1) (pre ++ (r.encode ++ tail)) pre.length kd = .panic := by
  have hel : r.encode.length = recSize r := KeyValue.encode_length_recSize r
  have hlog : (pre ++ (r.encode ++ tail)).length = pre.length + recSize r + tail.length := by
    simp only [List.length_append, hel]
    omega
  have hrs : recSize r = HEADER_SIZE + r.key.length + r.value.length := rfl
  have hsplit : pre ++ (r.encode ++ tail)
      = (pre ++ Header.encode { timestamp := r.timestamp, key_size := r.key.length,
                                value_size := r.value.length })
        ++ (r.key ++ (r.value ++ tail)) := by
    rw [KeyValue.encode]
    simp [List.append_assoc]
  have hc1 : ¬ (pre ++ (r.encode ++ tail)).length < pre.length + HEADER_SIZE := by omega
  simp only [KeyDir.loadAuxChecked]
  rw [if_neg hc1]
  have hdrop : (pre ++ (r.encode ++ tail)).drop pre.length = r.encode ++ tail :=
    List.drop_left pre _
  have htake : ((pre ++ (r.encode ++ tail)).drop pre.length).take HEADER_SIZE
      = Header.encode { timestamp := r.timestamp, key_size := r.key.length,
                        value_size := r.value.length } := by
    rw [hdrop]
    have h2 : r.encode ++ tail
        = Header.encode { timestamp := r.timestamp, key_size := r.key.length,
                          value_size := r.value.length } ++ ((r.key ++ r.value) ++ tail) := by
      rw [KeyValue.encode]
      simp [List.append_assoc]
    rw [h2]
    exact List.take_left' (Header.encode_length _)
  rw [htake, Header.decode_encode]
  dsimp only
  rw [Nat.mod_eq_of_lt hts, Nat.mod_eq_of_lt hk32, Nat.mod_eq_of_lt hv32]
  have hc2 : ¬ (pre ++ (r.encode ++ tail)).length < pre.length + HEADER_SIZE + r.key.length := by
    omega
  rw [if_neg hc2]
  have hkeyslice : ((pre ++ (r.encode ++ tail)).drop (pre.length + HEADER_SIZE)).take r.key.length
      = r.key := by
    rw [hsplit, List.drop_left' (by simp [List.length_append, Header.encode_length]),
      List.take_left' rfl]
  rw [hkeyslice, hku]
  rw [if_pos rfl]
  rw [if_pos (by omega)]

theorem KeyDir.loadAuxChecked_log (rs : List KeyValue) :
    ∀ (fuel : Nat) (pre extra : List Nat) (kd : KeyDir),
      (∀ r ∈ rs, r.wf) → (∀ r ∈ rs, recSize r ≤ u32Max) → extra.length < HEADER_SIZE →
      (encodeLog rs).length + extra.length < 12 * fuel →
      KeyDir.loadAuxChecked fuel (pre ++ (encodeLog rs ++ extra)) pre.length kd
        = .ret (.ok (foldEntries kd pre.length rs)) := by
  induction rs with
  | nil =>
    intro fuel pre extra kd _ _ hx _
    apply KeyDir.loadAuxChecked_stop
    simp only [encodeLog, List.nil_append, List.length_append]
    unfold HEADER_SIZE at hx ⊢
    omega
  | cons r rs ih =>
    intro fuel pre extra kd hwf hsz hx hfuel
    obtain ⟨hts, hk, hv, hku, hvu⟩ := hwf r (by simp)
    have hk32 : r.key.length < 2 ^ 32 := by unfold u32Max at hk; omega
    have hv32 : r.value.length < 2 ^ 32 := by unfold u32Max at hv; omega
    have hlen : (encodeLog (r :: rs)).length = recSize r + (encodeLog rs).length := by
      simp only [encodeLog, List.length_append, KeyValue.encode_length_recSize]
    have hrs12 : 12 ≤ recSize r := by
      have : recSize r = HEADER_SIZE + r.key.length + r.value.length := rfl
      unfold HEADER_SIZE at this
      omega
    cases fuel with
    | zero => exact absurd hfuel (by omega)
    | succ fuel =>
      have hassoc : encodeLog (r :: rs) ++ extra = r.encode ++ (encodeLog rs ++ extra) := by
        simp only [encodeLog]
        rw [List.append_assoc]
      rw [hassoc, KeyDir.loadAuxChecked_cons fuel pre r (encodeLog rs ++ extra) kd hts hk32
        hv32 hku (hsz r (by simp))]
      have hre : pre ++ (r.encode ++ (encodeLog rs ++ extra))
          = (pre ++ r.encode) ++ (encodeLog rs ++ extra) := (List.append_assoc _ _ _).symm
      rw [hre, ih fuel (pre ++ r.encode) extra _
        (fun r1 hr1 => hwf r1 (List.mem_cons_of_mem _ hr1))
        (fun r1 hr1 => hsz r1 (List.mem_cons_of_mem _ hr1)) hx (by omega)]
      have hplen : (pre ++ r.encode).length = pre.length + recSize r := by
        simp only [List.length_append, KeyValue.encode_length_recSize]
      rw [hplen]
      rfl

/-- Characterization of KeyValue::new: the two rejection branches, in
source order, and the acceptance branch storing key and value
verbatim. -/
theorem KeyValue.new_spec (ts : Nat) (key value : List Nat) :
    (key.length > u32Max → KeyValue.new ts key value = .error .KeyTooLong)
      ∧ (key.length ≤ u32Max → value.length > u32Max →
          KeyValue.new ts key value = .error .ValueTooLong)
      ∧ (key.length ≤ u32Max → value.length ≤ u32Max →
          KeyValue.new ts key value = .ok { timestamp := ts, key := key, value := value }) := by
  unfold KeyValue.new
  refine ⟨fun hk => ?_, fun hk hv => ?_, fun hk hv => ?_⟩
  · rw [if_pos hk]
  · rw [if_neg (by omega), if_pos hv]
  · rw [if_neg (by omega), if_neg (by omega)]

theorem KeyDir.loadChecked_encodeLog (rs : List KeyValue) (extra : List Nat)
    (hwf : ∀ r ∈ rs, r.wf) (hsz : ∀ r ∈ rs, recSize r ≤ u32Max)
    (hx : extra.length < HEADER_SIZE) :
    KeyDir.loadChecked (encodeLog rs ++ extra) = .ret (.ok (foldEntries [] 0 rs)) := by
  unfold KeyDir.loadChecked
  have hfuel : (encodeLog rs).length + extra.length
      < 12 * ((encodeLog rs ++ extra).length / HEADER_SIZE + 1) := by
    simp only [List.length_append]
    unfold HEADER_SIZE
    omega
  have h := KeyDir.loadAuxChecked_log rs ((encodeLog rs ++ extra).length / HEADER_SIZE + 1)
    [] extra [] hwf hsz hx hfuel
  simpa using h

/-- On the logs the engine-level theorems feed to KeyDir::load — the
empty log of a fresh store and the 22-byte preexisting log of the
reopened-store scenario — the checked loader and KeyDir.load agree, so
the entry-size narrowing it omits cannot fire there. -/
theorem loadChecked_agrees_on_small_logs :
    KeyDir.loadChecked [] = .ret (KeyDir.load [])
      ∧ KeyDir.loadChecked preexistingLog = .ret (KeyDir.load preexistingLog) :=
  ⟨rfl, rfl⟩

/-- C1: the claim states that after set(k, v1) then set(k, v2) both
succeed, get(k) returns Some(v2), for every store state including one
reopened over a non-empty existing log.  The code violates this:
MyDB::new initializes the tracked next-write offset to 0 even when the
loaded log is non-empty, so on a store opened over a 22-byte log both
sets succeed but record index offsets 0 and 14 while their bytes
physically land at 22 and 36; the subsequent get reads 14 bytes at
offset 14 — a window into the old record and the first header — and
fails with a decode error instead of returning Some(v2). -/
theorem reopened_store_set_set_get_fails :
    reopenSetSetGet = .error (.DecodeError
        "wrong key-value buffer size: got 14 bytes, expected 1684828796 bytes")
      ∧ reopenSetSetGet ≠ .ok (some [121]) := by
  refine ⟨rfl, ?_⟩
  intro hcontra
  have h2 := (rfl : reopenSetSetGet = Except.error (.DecodeError
    "wrong key-value buffer size: got 14 bytes, expected 1684828796 bytes")).symm.trans hcontra
  exact Except.noConfusion h2

/-- C2 counterexample: the claim states that the index build fails on a
log with 1 to 11 trailing bytes after the last complete record.  On the
14-byte record plus one trailing byte it instead succeeds: read_exact
reports UnexpectedEof for a partial header read just as for a clean end
of file, and KeyDir::load breaks out of the loop successfully (the
checked loader, which also models the entry-size narrowing of lib.rs
line 188, is used, and the 14-byte record is far below that bound). -/
theorem loadChecked_trailing_byte_succeeds :
    KeyDir.loadChecked truncatedTailLog
      = .ret (.ok [([97], { timestamp := 5, size := 14, offset := 0 })]) := rfl

/-- C2 amended: a log consisting of well-formed records, each of total
on-disk size 12 + key_size + value_size at most u32::MAX (so the checked
u32 narrowing of the entry size at lib.rs line 188 cannot panic),
followed by 1 to 11 trailing bytes, loads successfully and produces
exactly the index of the log without the trailing bytes: the truncated
trailing header is silently ignored, not an error. -/
theorem loadChecked_ignores_short_trailing_bytes (rs : List KeyValue) (extra : List Nat)
    (hwf : ∀ r ∈ rs, r.wf) (hsz : ∀ r ∈ rs, recSize r ≤ u32Max)
    (hlo : 1 ≤ extra.length) (hhi : extra.length ≤ 11) :
    KeyDir.loadChecked (encodeLog rs ++ extra) = KeyDir.loadChecked (encodeLog rs)
      ∧ ∃ kd, KeyDir.loadChecked (encodeLog rs ++ extra) = .ret (.ok kd) := by
  have hx : extra.length < HEADER_SIZE := by unfold HEADER_SIZE; omega
  have ha := KeyDir.loadChecked_encodeLog rs extra hwf hsz hx
  have hb := KeyDir.loadChecked_encodeLog rs [] hwf hsz (by decide)
  rw [List.append_nil] at hb
  exact ⟨ha.trans hb.symm, ⟨_, ha⟩⟩

/-- C2 amended, witness: the one-record log with one trailing byte. -/
theorem loadChecked_ignores_short_trailing_bytes_witness :
    KeyDir.loadChecked (encodeLog [⟨5, [97], [98]⟩] ++ [7])
        = KeyDir.loadChecked (encodeLog [⟨5, [97], [98]⟩])
      ∧ ∃ kd, KeyDir.loadChecked (encodeLog [⟨5, [97], [98]⟩] ++ [7]) = .ret (.ok kd) :=
  loadChecked_ignores_short_trailing_bytes [⟨5, [97], [98]⟩] [7]
    (by decide) (by decide) (by decide) (by decide)

/-- C3 counterexample: the claim states the index build succeeds on
every well-formed log, but the one-record log whose key is exactly
u32::MAX bytes — accepted by KeyValue::new, whose length check is a
strict greater-than, and perfectly decodable, hence well-formed — makes
KeyDir::load panic at the checked u32 narrowing of the entry size
(lib.rs line 188), since 12 + u32::MAX + 0 exceeds u32::MAX; the build
aborts instead of succeeding. -/
theorem loadChecked_huge_key_panics :
    hugeRecord.wf ∧ KeyDir.loadChecked (encodeLog [hugeRecord]) = .panic := by
  refine ⟨hugeRecord_wf, ?_⟩
  have hts : hugeRecord.timestamp < 2 ^ 32 := by decide
  have hk32 : hugeRecord.key.length < 2 ^ 32 := by
    rw [show hugeRecord.key = List.replicate u32Max 97 from rfl, List.length_replicate]
    unfold u32Max
    omega
  have hv32 : hugeRecord.value.length < 2 ^ 32 := by
    rw [show hugeRecord.value = ([] : List Nat) from rfl, List.length_nil]
    decide
  have hku : isValidUtf8 hugeRecord.key = true := isValidUtf8_replicate97 u32Max
  have hbig : u32Max < recSize hugeRecord := by
    rw [recSize_expand hugeRecord,
      show hugeRecord.key = List.replicate u32Max 97 from rfl, List.length_replicate,
      show hugeRecord.value = ([] : List Nat) from rfl, List.length_nil]
    unfold HEADER_SIZE u32Max
    omega
  have hlog : encodeLog [hugeRecord] = [] ++ (hugeRecord.encode ++ []) := by
    simp only [encodeLog, List.nil_append]
  unfold KeyDir.loadChecked
  rw [hlog]
  exact KeyDir.loadAuxChecked_panic_at _ [] hugeRecord [] [] hts hk32 hv32 hku hbig

/-- C3 amended: for every well-formed log (a concatenation of complete,
valid records) in which each record additionally has total on-disk size
12 + key_size + value_size at most u32::MAX — beyond that bound the
checked entry-size narrowing panics, see the counterexample — the index
build succeeds, and the resulting mapping sends every key to exactly the
entry of the last record in file order bearing that key — timestamp from
that record, size 12 + key_size + value_size, offset the byte position
where that record begins — and no other key to anything (specLookup is
that specification). -/
theorem loadChecked_wellformed_log_spec (rs : List KeyValue)
    (hwf : ∀ r ∈ rs, r.wf) (hsz : ∀ r ∈ rs, recSize r ≤ u32Max) :
    ∃ kd, KeyDir.loadChecked (encodeLog rs) = .ret (.ok kd) ∧
      ∀ k, kdLookup kd k = specLookup rs 0 k := by
  have h := KeyDir.loadChecked_encodeLog rs [] hwf hsz (by decide)
  rw [List.append_nil] at h
  refine ⟨_, h, fun k => ?_⟩
  rw [kdLookup_foldEntries]
  cases specLookup rs 0 k <;> rfl

/-- C3 witness at a concrete log whose first key is overwritten. -/
theorem loadChecked_wellformed_log_spec_witness :
    (∀ r ∈ demoRecords, r.wf) ∧ (∀ r ∈ demoRecords, recSize r ≤ u32Max) ∧
    ∃ kd, KeyDir.loadChecked (encodeLog demoRecords) = .ret (.ok kd) ∧
      ∀ k, kdLookup kd k = specLookup demoRecords 0 k :=
  ⟨by decide, by decide,
    loadChecked_wellformed_log_spec demoRecords (by decide) (by decide)⟩

/-- C4: whenever set returns an error, the engine state — in particular
the in-memory index and the tracked next-write offset — is left exactly
as it was; in the pure embedding every error path of set arises before
any bytes are appended (at record construction), matching the claim's
precondition, and nothing is rolled back because nothing was changed. -/
theorem set_error_leaves_state (db : MyDB) (ts : Nat) (key value : List Nat) (e : Error)
    (h : (db.set ts key value).fst = .error e) :
    (db.set ts key value).snd = db := by
  unfold MyDB.set at h ⊢
  cases hkv : KeyValue.new ts key value with
  | error e2 => rfl
  | ok kv =>
    rw [hkv] at h
    exact absurd h (by simp)

/-- Helper: when record construction fails, set returns the error with
the state unchanged. -/
theorem MyDB.set_new_error (db : MyDB) (ts : Nat) (k v : List Nat) (e : Error)
    (h : KeyValue.new ts k v = .error e) : db.set ts k v = (.error e, db) := by
  unfold MyDB.set
  rw [h]

/-- C4 witness: setting an oversized key on the empty store errors and
leaves the store untouched. -/
theorem set_error_leaves_state_witness :
    (emptyDB.set 0 oversizedBytes []).fst = .error .KeyTooLong
      ∧ (emptyDB.set 0 oversizedBytes []).snd = emptyDB := by
  have hnew : KeyValue.new 0 oversizedBytes [] = .error .KeyTooLong :=
    (KeyValue.new_spec 0 oversizedBytes []).1
      (by unfold oversizedBytes; simp only [List.length_replicate]; unfold u32Max; omega)
  have hfst : (emptyDB.set 0 oversizedBytes []).fst = .error .KeyTooLong := by
    rw [MyDB.set_new_error emptyDB 0 oversizedBytes [] .KeyTooLong hnew]
  exact ⟨hfst, set_error_leaves_state emptyDB 0 oversizedBytes [] .KeyTooLong hfst⟩

/-- C5: for every record whose timestamp is a u32 and whose key and
value are UTF-8 byte strings with lengths representable in u32,
decoding the encoding yields the record back unchanged. -/
theorem record_roundtrip (kv : KeyValue) (h : kv.wf) :
    KeyValue.decode kv.encode = .ok kv :=
  KeyValue.decode_encode_roundtrip kv h

/-- C5 witness at the record (7, ab, c). -/
theorem record_roundtrip_witness :
    KeyValue.wf { timestamp := 7, key := [97, 98], value := [99] }
      ∧ KeyValue.decode (KeyValue.encode { timestamp := 7, key := [97, 98], value := [99] })
        = .ok { timestamp := 7, key := [97, 98], value := [99] } :=
  ⟨by decide, record_roundtrip { timestamp := 7, key := [97, 98], value := [99] } (by decide)⟩

/-- C6: record decoding fails with a decode error exactly when the
buffer is shorter than 12 bytes, or its total length differs from
12 + key_size + value_size as read from the decoded header, or the key
bytes or the value bytes are not valid UTF-8 (decodeRejects spells out
precisely these four conditions); in every other case it succeeds. -/
theorem decode_rejects_iff (buf : List Nat) :
    ((∃ msg, KeyValue.decode buf = .error (.DecodeError msg)) ↔ decodeRejects buf)
      ∧ ((∃ kv, KeyValue.decode buf = .ok kv) ↔ ¬ decodeRejects buf) := by
  obtain ⟨herr, hok⟩ := KeyValue.decode_characterization buf
  constructor
  · constructor
    · rintro ⟨msg, hmsg⟩
      by_contra hn
      rw [hok hn] at hmsg
      exact Except.noConfusion hmsg
    · exact herr
  · constructor
    · rintro ⟨kv, hkv⟩ hrej
      obtain ⟨msg, hmsg⟩ := herr hrej
      rw [hmsg] at hkv
      exact Except.noConfusion hkv
    · exact fun hn => ⟨_, hok hn⟩

/-- C7: constructing a record with a key longer than u32::MAX fails with
KeyTooLong; with a key in range but a value longer than u32::MAX it
fails with ValueTooLong — two distinct error kinds — and with both in
range it succeeds with the key and value stored verbatim (no
truncation). -/
theorem new_rejects_oversized (ts : Nat) (key value : List Nat) :
    (key.length > u32Max → KeyValue.new ts key value = .error .KeyTooLong)
      ∧ (key.length ≤ u32Max → value.length > u32Max →
          KeyValue.new ts key value = .error .ValueTooLong)
      ∧ (key.length ≤ u32Max → value.length ≤ u32Max →
          KeyValue.new ts key value = .ok { timestamp := ts, key := key, value := value }) :=
  KeyValue.new_spec ts key value

/-- C7 witness: a (u32::MAX + 1)-byte key or value is rejected with the
respective error kind, and a small record is accepted verbatim. -/
theorem new_rejects_oversized_witness :
    KeyValue.new 0 oversizedBytes [] = .error .KeyTooLong
      ∧ KeyValue.new 0 [] oversizedBytes = .error .ValueTooLong
      ∧ KeyValue.new 0 [97] [98] = .ok { timestamp := 0, key := [97], value := [98] } := by
  have hbig : oversizedBytes.length > u32Max := by
    unfold oversizedBytes
    simp only [List.length_replicate]
    unfold u32Max
    omega
  exact ⟨(new_rejects_oversized 0 oversizedBytes []).1 hbig,
    (new_rejects_oversized 0 [] oversizedBytes).2.1 (Nat.zero_le _) hbig,
    (new_rejects_oversized 0 [97] [98]).2.2 (by decide) (by decide)⟩

/-- C8: get on a key absent from the index returns Ok(None) — a
successful no-value result, not an error — and leaves the state
untouched; in particular this holds for every key in a newly created,
empty store. -/
theorem get_missing_key_ok (key : List Nat) :
    (∀ db : MyDB, kdLookup db.keydir key = none → db.get key = (.ok none, db))
      ∧ (∀ db : MyDB, MyDB.new_from_file [] = .ok db → db.get key = (.ok none, db)) := by
  have habs : ∀ db : MyDB, kdLookup db.keydir key = none → db.get key = (.ok none, db) := by
    intro db h
    unfold MyDB.get
    rw [h]
  refine ⟨habs, fun db hdb => ?_⟩
  have h0 : MyDB.new_from_file []
      = .ok { file := [], keydir := [], offset := 0, cursor := 0 } := rfl
  rw [h0] at hdb
  injection hdb with hdb2
  rw [← hdb2]
  exact habs _ rfl

/-- C8 witness: the empty store has no entry for the key h and get
returns Ok(None) on it. -/
theorem get_missing_key_ok_witness :
    kdLookup emptyDB.keydir [104] = none ∧ emptyDB.get [104] = (.ok none, emptyDB) :=
  ⟨rfl, (get_missing_key_ok [104]).1 emptyDB rfl⟩

/-- C9: whatever get does — missing key, successful read, failed read or
failed decode — it never changes the log contents, the index, or the
tracked next-write offset; the returned state differs from the input
state at most in the file cursor. -/
theorem get_frame (db : MyDB) (key : List Nat) :
    (db.get key).snd.file = db.file
      ∧ (db.get key).snd.keydir = db.keydir
      ∧ (db.get key).snd.offset = db.offset := by
  unfold MyDB.get
  cases h : kdLookup db.keydir key with
  | none => exact ⟨rfl, rfl, rfl⟩
  | some entry =>
    dsimp only
    by_cases hb : db.file.length < entry.offset + entry.size
    · rw [if_pos hb]
      exact ⟨rfl, rfl, rfl⟩
    · rw [if_neg hb]
      cases hd : KeyValue.decode ((db.file.drop entry.offset).take entry.size) with
      | error e => exact ⟨rfl, rfl, rfl⟩
      | ok kv => exact ⟨rfl, rfl, rfl⟩

/-- C10: record decoding is total over arbitrary byte input: it always
returns either a decode error or a decoded record, and in the success
case the key and value slices are complete — 12 + key length + value
length equals the buffer length, so every slice the decoder takes lies
within the buffer. -/
theorem decode_total (buf : List Nat) :
    (∃ msg, KeyValue.decode buf = .error (.DecodeError msg))
      ∨ (∃ kv, KeyValue.decode buf = .ok kv
          ∧ HEADER_SIZE + kv.key.length + kv.value.length = buf.length) := by
  by_cases h : decodeRejects buf
  · exact Or.inl ((KeyValue.decode_characterization buf).1 h)
  · right
    refine ⟨_, (KeyValue.decode_characterization buf).2 h, ?_⟩
    unfold decodeRejects at h
    push_neg at h
    obtain ⟨h12, hlen, _, _⟩ := h
    have hk : (decodedKeyBytes buf).length = decodedKeySize buf := by
      unfold decodedKeyBytes
      rw [List.length_take, List.length_drop]
      omega
    have hv : (decodedValueBytes buf).length = decodedValueSize buf := by
      unfold decodedValueBytes
      rw [List.length_take, List.length_drop]
      omega
    dsimp only
    rw [hk, hv]
    omega

